import Mathlib

/-! Remote selection, token lookup and project-path parsing of `lab`.

A shallow embedding of `gitlab/gitlab.go` and of `ParceRepositoryFullName` in
`commands/internal/internal.go`.

* Go strings are Lean strings; every byte the code inspects (`/`, `+`, `-`, the
  digits, the word `gitlab`) is ASCII, so splitting and prefix tests on
  characters agree with the byte-wise ones of the Go library.
* A Go function whose every `return` is `nil, err` or `value, nil` yields an
  `Except`; a pointer that may be `nil` next to a `nil` error is an `Option`.
* The user interface and the configuration file are the outside world: `Env`
  fixes what the i-th `ui.Ask` and the i-th `conf.Write` answer, `State` carries
  the configuration (mutated in place through the `*config.Config` pointer) and
  the log of prompts, messages and write attempts.
* A run-time panic (failed type assertion, slice bound out of range) is `none`
  in an outer `Option`.
-/

namespace lab

/-! ## Data model -/

deriving instance DecidableEq for Except

/-- Modelled from the spec: the struct `git.RemoteInfo` is declared in package `git`,
outside the sources at hand. `Domain` is the only field this package reads; the
remaining fields (what is needed to build the API and web base URLs) are kept
together in `Other`. -/
structure RemoteInfo where
  Domain : String
  Other : List String
  deriving DecidableEq, Repr

/-- A dynamically typed value (`interface{}`) as found in a decoded YAML document. -/
inductive Value where
  | str (s : String)
  | int (n : Int)
  | bool (b : Bool)
  | null
  deriving DecidableEq, Repr

/-- The item type `yaml.MapItem` of a `yaml.MapSlice`. -/
structure MapItem where
  Key : Value
  Value : Value
  deriving DecidableEq, Repr

/-- The fields of `config.Config` that this package touches. -/
structure Config where
  PreferredDomains : List String
  Tokens : List MapItem
  deriving DecidableEq, Repr

/-- Go error values, kept structured instead of rendered to text: an error handed over by the
user interface or the configuration file (`ext`), a `*strconv.NumError` for the text that
failed to parse (`num`, syntax and range errors alike), and the two shapes built with
`fmt.Errorf` in `gitlab.go`. -/
inductive Error where
  | ext (msg : String)
  | num (text : String)
  | invalidNumber (n : Int)
  | errorf (format : String) (cause : Error)
  deriving DecidableEq, Repr

/-- The outside world: the reply to the i-th `ui.Ask` (given the prompt text) and the
outcome of the i-th `conf.Write` (given the configuration being written). -/
structure Env where
  ask : Nat → String → String × Option Error
  write : Nat → Config → Option Error

/-- The mutable state: the configuration behind the `conf` pointer and the log of
everything shown, asked and written so far. -/
structure State where
  conf : Config
  messages : List String
  asked : List String
  written : List Config
  deriving DecidableEq, Repr

/-- The call `ui.Message(text)`. -/
def uiMessage (st : State) (text : String) : State :=
  { st with messages := st.messages ++ [text] }

/-- The call `ui.Ask(text)`: the reply of the environment, and the prompt logged. -/
def uiAsk (env : Env) (st : State) (text : String) : (String × Option Error) × State :=
  (env.ask st.asked.length text, { st with asked := st.asked ++ [text] })

/-- The call `conf.Write()`: the outcome fixed by the environment, and the attempt logged. -/
def confWrite (env : Env) (st : State) : Option Error × State :=
  (env.write st.written.length st.conf, { st with written := st.written ++ [st.conf] })

/-- Modelled from the spec: `conf.AddRepository` is a method of package `config`, outside the
sources at hand. The spec: "append the chosen remote's domain to `prefs.preferredDomains`". -/
def AddRepository (conf : Config) (domain : String) : Config :=
  { conf with PreferredDomains := conf.PreferredDomains ++ [domain] }

/-- Modelled from the spec: `conf.AddToken` is a method of package `config`, outside the
sources at hand. The spec: "store it into `prefs.tokens[domain]`", where "existing entries are
never overwritten": a new item for the domain is added at the end of the mapping. -/
def AddToken (conf : Config) (domain token : String) : Config :=
  { conf with Tokens := conf.Tokens ++ [⟨Value.str domain, Value.str token⟩] }

/-! ## Library functions -/

/-- The test `strings.HasPrefix(s, p)`. -/
def strings.HasPrefix (s p : String) : Bool :=
  p.toList.isPrefixOf s.toList

/-- Cutting a list of characters at every occurrence of `sep`: always at least one piece. -/
def strings.splitChars (sep : Char) : List Char → List (List Char)
  | [] => [[]]
  | c :: cs =>
    if c = sep then [] :: strings.splitChars sep cs
    else
      match strings.splitChars sep cs with
      | [] => [[c]]
      | seg :: segs => (c :: seg) :: segs

/-- The function `strings.Split(s, sep)` for a separator of one byte, as in the source. -/
def strings.Split (s : String) (sep : Char) : List String :=
  (strings.splitChars sep s.toList).map String.mk

/-- The function `strings.Join(elems, sep)`. -/
def strings.Join : List String → String → String
  | [], _ => ""
  | [a], _ => a
  | a :: b :: rest, sep => a ++ sep ++ strings.Join (b :: rest) sep

/-- The digits loop of `strconv.Atoi`: `n = n*10 + int(ch - '0')`, a syntax error (`none`)
on any byte outside `0..9`. -/
def strconv.atoiDigits : List Char → Nat → Option Nat
  | [], n => some n
  | ch :: rest, n =>
    if ch.isDigit then strconv.atoiDigits rest (n * 10 + (ch.toNat - 48)) else none

/-- Largest value of the Go type `int` (64 bit). -/
def strconv.maxInt : Int := 2 ^ 63 - 1

/-- Smallest value of the Go type `int` (64 bit). -/
def strconv.minInt : Int := -(2 ^ 63)

/-- The function `strconv.Atoi`: an optional sign, then one or more decimal digits, the value
within the range of `int`; anything else is an error (the integer that Go returns next to an
error is not kept). -/
def strconv.Atoi (s : String) : Except Error Int :=
  match s.toList with
  | [] => .error (Error.num s)
  | c :: cs =>
    let body := if c = '-' ∨ c = '+' then cs else c :: cs
    match body with
    | [] => .error (Error.num s)
    | _ :: _ =>
      match strconv.atoiDigits body 0 with
      | none => .error (Error.num s)
      | some n =>
        let v : Int := if c = '-' then -(n : Int) else (n : Int)
        if v < strconv.minInt ∨ strconv.maxInt < v then .error (Error.num s)
        else .ok v

namespace gitlab

/-! ## `gitlab.go` -/

/-- The function `filterHasGitlabDomain`: the loop appends every remote whose domain starts
with `gitlab` to the result slice `gitlabRemotes`. -/
def filterHasGitlabDomainLoop : List RemoteInfo → List RemoteInfo → List RemoteInfo
  | [], gitlabRemotes => gitlabRemotes
  | remoteInfo :: rest, gitlabRemotes =>
    if strings.HasPrefix remoteInfo.Domain "gitlab" then
      filterHasGitlabDomainLoop rest (gitlabRemotes ++ [remoteInfo])
    else
      filterHasGitlabDomainLoop rest gitlabRemotes

/-- The function `filterHasGitlabDomain`. -/
def filterHasGitlabDomain (remoteInfos : List RemoteInfo) : List RemoteInfo :=
  filterHasGitlabDomainLoop remoteInfos []

/-- The inner loop of `hasPriorityRemote`: the first remote whose domain is `preferredDomain`. -/
def hasPriorityRemoteInner (preferredDomain : String) : List RemoteInfo → Option RemoteInfo
  | [] => none
  | remoteInfo :: rest =>
    if preferredDomain = remoteInfo.Domain then some remoteInfo
    else hasPriorityRemoteInner preferredDomain rest

/-- The function `hasPriorityRemote`: the outer loop runs over the preferred domains. -/
def hasPriorityRemote (remoteInfos : List RemoteInfo) : List String → Option RemoteInfo
  | [] => none
  | preferredDomain :: rest =>
    match hasPriorityRemoteInner preferredDomain remoteInfos with
    | some remoteInfo => some remoteInfo
    | none => hasPriorityRemote remoteInfos rest

/-- The numbered menu of `inputUseRemote`: one message `i+1) domain` per remote. -/
def showRemotes : List RemoteInfo → Nat → State → State
  | [], _, st => st
  | remoteInfo :: rest, i, st =>
    showRemotes rest (i + 1) (uiMessage st (toString (i + 1) ++ ") " ++ remoteInfo.Domain))

/-- The function `inputUseRemote`. Every `return` of the source is either `nil, err` or
`&remoteInfos[choiceNumber-1], nil`, hence the sum type; the index is in range by the guard. -/
def inputUseRemote (env : Env) (st : State) (remoteInfos : List RemoteInfo) :
    Except Error RemoteInfo × State :=
  let st1 := uiMessage st "That repository existing multi gitlab remote repository."
  let st2 := showRemotes remoteInfos 0 st1
  match uiAsk env st2 "Please choice target domain :" with
  | ((_, some err), st3) => (.error (Error.errorf "Failed target domain input. %v" err), st3)
  | ((text, none), st3) =>
    match strconv.Atoi text with
    | .error err => (.error (Error.errorf "Failed parse number. %v" err), st3)
    | .ok choiceNumber =>
      if h : choiceNumber < 1 ∨ choiceNumber > (remoteInfos.length : Int) then
        (.error (Error.invalidNumber choiceNumber), st3)
      else
        (.ok (remoteInfos.get ⟨(choiceNumber - 1).toNat, by omega⟩), st3)

/-- The function `selectUseRemote`: `nil, err` on failure, `gitlabRemote, nil` otherwise. -/
def selectUseRemote (env : Env) (st : State) (gitlabRemotes : List RemoteInfo) :
    Except Error RemoteInfo × State :=
  match hasPriorityRemote gitlabRemotes st.conf.PreferredDomains with
  | some gitlabRemote => (.ok gitlabRemote, st)
  | none =>
    match inputUseRemote env st gitlabRemotes with
    | (.error err, st1) => (.error (Error.errorf "Failed choise gitlab remote. %v" err), st1)
    | (.ok gitlabRemote, st1) =>
      let st2 := { st1 with conf := AddRepository st1.conf gitlabRemote.Domain }
      match confWrite env st2 with
      | (some err, st3) =>
        (.error (Error.errorf "Failed update config of repository priority. %v" err), st3)
      | (none, st3) => (.ok gitlabRemote, st3)

/-- The method `GitlabRemoteFilter.Filter`, with the receiver's field `GitRemotes` as the
argument `gitRemotes`. The result is `nil, err`, or a remote that may be `nil` and no error. -/
def Filter (env : Env) (st : State) (gitRemotes : List RemoteInfo) :
    Except Error (Option RemoteInfo) × State :=
  let gitlabRemotes := filterHasGitlabDomain gitRemotes
  match gitlabRemotes with
  | [gitlabRemote] => (.ok (some gitlabRemote), st)
  | _ :: _ :: _ =>
    match selectUseRemote env st gitlabRemotes with
    | (.error err, st1) =>
      (.error (Error.errorf "Failed select multi remote repository. %v" err), st1)
    | (.ok gitlabRemote, st1) => (.ok (some gitlabRemote), st1)
  | [] => (.ok none, st)

/-- The type assertion `x.(string)`: `none` is the run-time panic on any other dynamic type. -/
def assertString : Value → Option String
  | Value.str s => some s
  | _ => none

/-- The lookup loop of `getPrivateToken`: every item whose key is `domain` overwrites `token`;
a failed type assertion aborts the run (`none`). -/
def lookupToken (domain : String) : List MapItem → String → Option String
  | [], token => some token
  | mapItem :: rest, token =>
    match assertString mapItem.Key with
    | none => none
    | some key =>
      if key = domain then
        match assertString mapItem.Value with
        | none => none
        | some value => lookupToken domain rest value
      else lookupToken domain rest token

/-- The function `getPrivateToken`. Inside the `if` block `token, err := ui.Ask(...)` declares
a new `token` (here `entered`); the final `return token, nil` reads the outer one. -/
def getPrivateToken (env : Env) (st : State) (domain : String) :
    Option (Except Error String × State) :=
  match lookupToken domain st.conf.Tokens "" with
  | none => none
  | some token =>
    if token = "" then
      match uiAsk env st "Please input GitLab private token :" with
      | ((_, some err), st1) =>
        some (.error (Error.errorf "Failed input private token. %s" err), st1)
      | ((entered, none), st1) =>
        let st2 := { st1 with conf := AddToken st1.conf domain entered }
        match confWrite env st2 with
        | (some err, st3) =>
          some (.error (Error.errorf "Failed update config of private token. %s" err), st3)
        | (none, st3) => some (.ok token, st3)
    else
      some (.ok token, st)

/-- The function `ParceRepositoryFullName` of package `gitlab` (fixed width): the segments at
index 3 and 4; an index out of range is a run-time panic (`none`). -/
def ParceRepositoryFullName (webURL : String) : Option String :=
  let sp := strings.Split webURL '/'
  match sp.get? 3, sp.get? 4 with
  | some a, some b => some (strings.Join [a, b] "/")
  | _, _ => none

end gitlab

namespace internal

/-! ## `commands/internal/internal.go` -/

/-- The slice `subPageWords`. -/
def subPageWords : List String := ["issues", "merge_requests"]

/-- The inner loop of `ParceRepositoryFullName`: `word` (at index `i`) against every marker. -/
def scanWords (word : String) (i : Nat) : List String → Nat → Nat
  | [], subPageIndex => subPageIndex
  | subPageWord :: rest, subPageIndex =>
    scanWords word i rest (if word = subPageWord then i else subPageIndex)

/-- The outer loop of `ParceRepositoryFullName` over `splitURL`, from index `i` on. -/
def scanURL : List String → Nat → Nat → Nat
  | [], _, subPageIndex => subPageIndex
  | word :: rest, i, subPageIndex =>
    scanURL rest (i + 1) (scanWords word i subPageWords subPageIndex)

/-- The function `ParceRepositoryFullName` of package `internal` (landmark scan). The slice
expressions `[3:]` and `[:subPageIndex]` panic (`none`) when out of range. -/
def ParceRepositoryFullName (webURL : String) : Option String :=
  let sp := strings.Split webURL '/'
  if sp.length < 3 then none
  else
    let splitURL := sp.drop 3
    let subPageIndex := scanURL splitURL 0 0
    if subPageIndex ≤ splitURL.length then
      some (strings.Join (splitURL.take subPageIndex) "/")
    else none

end internal

/-! ## Notions used to state the properties -/

/-- A string that reads as an integer: an optional sign followed by one or more decimal
digits. -/
def isIntegerText (s : String) : Bool :=
  match s.toList with
  | [] => false
  | c :: cs =>
    if c = '-' ∨ c = '+' then !cs.isEmpty && cs.all Char.isDigit
    else (c :: cs).all Char.isDigit

/-- A segment equal to one of the sub-page markers `issues` and `merge_requests`. -/
def isMarker (w : String) : Bool :=
  w = "issues" || w = "merge_requests"

/-- An item of the token mapping whose key and value are both strings. -/
def isStringPair (item : MapItem) : Bool :=
  match item.Key, item.Value with
  | Value.str _, Value.str _ => true
  | _, _ => false

/-- Two calls of `getPrivateToken` in a row for the same domain, the second on the state left
by the first; `none` when either call panics. -/
def getPrivateTokenTwice (env : Env) (st : State) (domain : String) :
    Option ((Except Error String × State) × (Except Error String × State)) :=
  match gitlab.getPrivateToken env st domain with
  | none => none
  | some (r1, st1) =>
    match gitlab.getPrivateToken env st1 domain with
    | none => none
    | some (r2, st2) => some ((r1, st1), (r2, st2))

end lab

/-! ## Properties -/

namespace lab

open gitlab

/-! ### Domain filter -/

theorem filterHasGitlabDomainLoop_eq (remoteInfos acc : List RemoteInfo) :
    filterHasGitlabDomainLoop remoteInfos acc
      = acc ++ remoteInfos.filter (fun r => strings.HasPrefix r.Domain "gitlab") := by
  induction remoteInfos generalizing acc with
  | nil => simp [filterHasGitlabDomainLoop]
  | cons r rest ih =>
    by_cases h : strings.HasPrefix r.Domain "gitlab" = true
    · simp [filterHasGitlabDomainLoop, h, ih]
    · simp [filterHasGitlabDomainLoop, h, ih]

theorem filterHasGitlabDomain_eq (remoteInfos : List RemoteInfo) :
    filterHasGitlabDomain remoteInfos
      = remoteInfos.filter (fun r => strings.HasPrefix r.Domain "gitlab") := by
  simp [filterHasGitlabDomain, filterHasGitlabDomainLoop_eq]

/-- C7: `filterHasGitlabDomain` is the list filter by "the domain starts with `gitlab`": it
keeps exactly those remotes, in their order and multiplicity; the result is a sub-list of the
input, every element of it is an element of the input, and the empty list gives the empty
list. -/
theorem filterHasGitlabDomain_is_filter (remoteInfos : List RemoteInfo) :
    filterHasGitlabDomain remoteInfos
        = remoteInfos.filter (fun r => strings.HasPrefix r.Domain "gitlab")
      ∧ (filterHasGitlabDomain remoteInfos).Sublist remoteInfos
      ∧ (∀ r, r ∈ filterHasGitlabDomain remoteInfos ↔
          r ∈ remoteInfos ∧ strings.HasPrefix r.Domain "gitlab" = true)
      ∧ filterHasGitlabDomain [] = [] := by
  refine ⟨filterHasGitlabDomain_eq remoteInfos, ?_, ?_, ?_⟩
  · rw [filterHasGitlabDomain_eq]
    exact List.filter_sublist remoteInfos
  · intro r
    rw [filterHasGitlabDomain_eq]
    simp [List.mem_filter]
  · rfl

/-! ### Remote selection -/

/-- C6: with fewer than two `gitlab` candidates `Filter` leaves the state as it was (nothing
asked, nothing written, configuration untouched) and its result is the same for every
environment and every state, so `preferredDomains` is not consulted: no candidate gives a
`nil` remote and no error, one candidate gives that candidate. -/
theorem Filter_fewer_than_two (env : Env) (st : State) (gitRemotes : List RemoteInfo)
    (h : (filterHasGitlabDomain gitRemotes).length < 2) :
    gitlab.Filter env st gitRemotes = (.ok (filterHasGitlabDomain gitRemotes).head?, st)
      ∧ (filterHasGitlabDomain gitRemotes = [] → gitlab.Filter env st gitRemotes = (.ok none, st))
      ∧ (∀ r, filterHasGitlabDomain gitRemotes = [r] →
          gitlab.Filter env st gitRemotes = (.ok (some r), st))
      ∧ (∀ (env1 : Env) (st1 : State),
          (gitlab.Filter env1 st1 gitRemotes).1 = (gitlab.Filter env st gitRemotes).1) := by
  unfold gitlab.Filter
  match hf : filterHasGitlabDomain gitRemotes with
  | [] => simp
  | [r] => simp
  | a :: b :: rest =>
    rw [hf] at h
    simp only [List.length_cons] at h
    omega

/-- C6, the scenario of the spec: the remotes `github.com` and `gitlab.example.com` with empty
preferences give the `gitlab.example.com` remote, state untouched. -/
theorem Filter_fewer_than_two_witness :
    (filterHasGitlabDomain [⟨"github.com", []⟩, ⟨"gitlab.example.com", []⟩]).length < 2
      ∧ gitlab.Filter ⟨fun _ _ => ("", none), fun _ _ => none⟩ ⟨⟨[], []⟩, [], [], []⟩
          [⟨"github.com", []⟩, ⟨"gitlab.example.com", []⟩]
        = (.ok (some ⟨"gitlab.example.com", []⟩), ⟨⟨[], []⟩, [], [], []⟩) :=
  ⟨by decide,
   (Filter_fewer_than_two ⟨fun _ _ => ("", none), fun _ _ => none⟩ ⟨⟨[], []⟩, [], [], []⟩
      [⟨"github.com", []⟩, ⟨"gitlab.example.com", []⟩] (by decide)).2.2.1
      ⟨"gitlab.example.com", []⟩ (by decide)⟩

theorem hasPriorityRemoteInner_eq_find (p : String) (remoteInfos : List RemoteInfo) :
    hasPriorityRemoteInner p remoteInfos = remoteInfos.find? (fun r => decide (p = r.Domain)) := by
  induction remoteInfos with
  | nil => rfl
  | cons r rest ih =>
    by_cases h : p = r.Domain
    · simp [hasPriorityRemoteInner, h]
    · simp [hasPriorityRemoteInner, h, ih]

theorem hasPriorityRemoteInner_some {p : String} {remoteInfos : List RemoteInfo}
    {r : RemoteInfo} (h : hasPriorityRemoteInner p remoteInfos = some r) :
    r ∈ remoteInfos ∧ r.Domain = p := by
  rw [hasPriorityRemoteInner_eq_find] at h
  refine ⟨List.mem_of_find?_eq_some h, ?_⟩
  have := List.find?_some h
  simp at this
  exact this.symm

theorem hasPriorityRemoteInner_none {p : String} {remoteInfos : List RemoteInfo} :
    hasPriorityRemoteInner p remoteInfos = none ↔ ∀ c ∈ remoteInfos, c.Domain ≠ p := by
  rw [hasPriorityRemoteInner_eq_find, List.find?_eq_none]
  constructor
  · intro h c hc hcp
    have := h c hc
    simp [hcp] at this
  · intro h c hc
    simp
    intro hp
    exact h c hc hp.symm

/-- The result of `hasPriorityRemote`, when some preferred domain is the domain of a
candidate: a candidate whose domain is the earliest such entry. -/
theorem hasPriorityRemote_spec (remoteInfos : List RemoteInfo) (prefs : List String)
    (hmatch : ∃ p ∈ prefs, ∃ c ∈ remoteInfos, c.Domain = p) :
    ∃ (r : RemoteInfo) (i : Nat), hasPriorityRemote remoteInfos prefs = some r ∧ r ∈ remoteInfos
      ∧ prefs[i]? = some r.Domain
      ∧ ∀ j : Nat, j < i → ∀ d, prefs[j]? = some d → ∀ c ∈ remoteInfos, c.Domain ≠ d := by
  induction prefs with
  | nil => simp at hmatch
  | cons p rest ih =>
    cases hin : hasPriorityRemoteInner p remoteInfos with
    | some r =>
      obtain ⟨hmem, hdom⟩ := hasPriorityRemoteInner_some hin
      refine ⟨r, 0, by simp [hasPriorityRemote, hin], hmem, by simp [hdom], ?_⟩
      intro j hj
      omega
    | none =>
      have hno := hasPriorityRemoteInner_none.mp hin
      have hrest : ∃ q ∈ rest, ∃ c ∈ remoteInfos, c.Domain = q := by
        obtain ⟨q, hq, c, hc, hcq⟩ := hmatch
        rcases List.mem_cons.mp hq with rfl | hq
        · exact absurd hcq (hno c hc)
        · exact ⟨q, hq, c, hc, hcq⟩
      obtain ⟨r, i, hr, hmem, hi, hbefore⟩ := ih hrest
      refine ⟨r, i + 1, by simp [hasPriorityRemote, hin, hr], hmem, by simpa using hi, ?_⟩
      intro j hj d hd c hc
      cases j with
      | zero =>
        simp at hd
        subst hd
        exact hno c hc
      | succ j =>
        simp at hd
        exact hbefore j (by omega) d hd c hc

theorem hasPriorityRemote_none {remoteInfos : List RemoteInfo} {prefs : List String} :
    hasPriorityRemote remoteInfos prefs = none ↔
      ∀ p ∈ prefs, ∀ c ∈ remoteInfos, c.Domain ≠ p := by
  induction prefs with
  | nil => simp [hasPriorityRemote]
  | cons p rest ih =>
    cases hin : hasPriorityRemoteInner p remoteInfos with
    | some r =>
      obtain ⟨hmem, hdom⟩ := hasPriorityRemoteInner_some hin
      simp only [hasPriorityRemote, hin]
      constructor
      · intro h
        cases h
      · intro h
        exact absurd hdom (h p (List.mem_cons_self _ _) r hmem)
    | none =>
      have hno := hasPriorityRemoteInner_none.mp hin
      simp only [hasPriorityRemote, hin, ih]
      constructor
      · intro h q hq
        rcases List.mem_cons.mp hq with rfl | hq
        · exact hno
        · exact h q hq
      · intro h q hq
        exact h q (List.mem_cons_of_mem _ hq)

/-- C1: when some preferred domain is the domain of a candidate (two or more candidates),
`selectUseRemote` returns, through `hasPriorityRemote`, a candidate whose domain is the
earliest entry of `preferredDomains` that is the domain of any candidate, and the state is
left as it was: nothing asked, nothing written, `preferredDomains` unchanged. -/
theorem selectUseRemote_preferred (env : Env) (st : State) (gitlabRemotes : List RemoteInfo)
    (_hlen : 2 ≤ gitlabRemotes.length)
    (hmatch : ∃ p ∈ st.conf.PreferredDomains, ∃ c ∈ gitlabRemotes, c.Domain = p) :
    ∃ (r : RemoteInfo) (i : Nat), selectUseRemote env st gitlabRemotes = (.ok r, st)
      ∧ hasPriorityRemote gitlabRemotes st.conf.PreferredDomains = some r
      ∧ r ∈ gitlabRemotes
      ∧ st.conf.PreferredDomains[i]? = some r.Domain
      ∧ ∀ j : Nat, j < i → ∀ d, st.conf.PreferredDomains[j]? = some d →
          ∀ c ∈ gitlabRemotes, c.Domain ≠ d := by
  obtain ⟨r, i, hr, hmem, hi, hbefore⟩ :=
    hasPriorityRemote_spec gitlabRemotes st.conf.PreferredDomains hmatch
  exact ⟨r, i, by simp [selectUseRemote, hr], hr, hmem, hi, hbefore⟩

/-- C1 at the scenario of the spec: candidates `gitlab.a.com`, `gitlab.b.com` and the
preference `gitlab.b.com`. -/
theorem selectUseRemote_preferred_witness :
    ∃ (r : RemoteInfo) (i : Nat), selectUseRemote ⟨fun _ _ => ("", none), fun _ _ => none⟩
          ⟨⟨["gitlab.b.com"], []⟩, [], [], []⟩ [⟨"gitlab.a.com", []⟩, ⟨"gitlab.b.com", []⟩]
        = (.ok r, ⟨⟨["gitlab.b.com"], []⟩, [], [], []⟩)
      ∧ hasPriorityRemote [⟨"gitlab.a.com", []⟩, ⟨"gitlab.b.com", []⟩] ["gitlab.b.com"] = some r
      ∧ r ∈ [(⟨"gitlab.a.com", []⟩ : RemoteInfo), ⟨"gitlab.b.com", []⟩]
      ∧ ["gitlab.b.com"][i]? = some r.Domain
      ∧ ∀ j : Nat, j < i → ∀ d, ["gitlab.b.com"][j]? = some d →
          ∀ c ∈ [(⟨"gitlab.a.com", []⟩ : RemoteInfo), ⟨"gitlab.b.com", []⟩], c.Domain ≠ d :=
  selectUseRemote_preferred ⟨fun _ _ => ("", none), fun _ _ => none⟩
    ⟨⟨["gitlab.b.com"], []⟩, [], [], []⟩ [⟨"gitlab.a.com", []⟩, ⟨"gitlab.b.com", []⟩]
    (by decide) ⟨"gitlab.b.com", by simp, ⟨"gitlab.b.com", []⟩, by simp, rfl⟩

/-! ### Order of the candidates -/

theorem hasPriorityRemoteInner_perm {p : String} {rs rs1 : List RemoteInfo}
    (hperm : rs.Perm rs1) :
    hasPriorityRemoteInner p rs = none ↔ hasPriorityRemoteInner p rs1 = none := by
  rw [hasPriorityRemoteInner_none, hasPriorityRemoteInner_none]
  constructor
  · intro h c hc
    exact h c (hperm.mem_iff.mpr hc)
  · intro h c hc
    exact h c (hperm.mem_iff.mp hc)

theorem hasPriorityRemote_perm (rs rs1 : List RemoteInfo) (prefs : List String)
    (hperm : rs.Perm rs1) (hmatch : ∃ p ∈ prefs, ∃ c ∈ rs, c.Domain = p) :
    ∃ r r1, hasPriorityRemote rs prefs = some r ∧ hasPriorityRemote rs1 prefs = some r1
      ∧ r ∈ rs ∧ r1 ∈ rs ∧ r.Domain = r1.Domain := by
  induction prefs with
  | nil => simp at hmatch
  | cons p rest ih =>
    cases hin : hasPriorityRemoteInner p rs with
    | some r =>
      cases hin1 : hasPriorityRemoteInner p rs1 with
      | none =>
        rw [(hasPriorityRemoteInner_perm hperm).mpr hin1] at hin
        cases hin
      | some r1 =>
        obtain ⟨hmem, hdom⟩ := hasPriorityRemoteInner_some hin
        obtain ⟨hmem1, hdom1⟩ := hasPriorityRemoteInner_some hin1
        exact ⟨r, r1, by simp [hasPriorityRemote, hin], by simp [hasPriorityRemote, hin1],
          hmem, hperm.mem_iff.mpr hmem1, by rw [hdom, hdom1]⟩
    | none =>
      have hin1 := (hasPriorityRemoteInner_perm hperm).mp hin
      have hno := hasPriorityRemoteInner_none.mp hin
      have hrest : ∃ q ∈ rest, ∃ c ∈ rs, c.Domain = q := by
        obtain ⟨q, hq, c, hc, hcq⟩ := hmatch
        rcases List.mem_cons.mp hq with rfl | hq
        · exact absurd hcq (hno c hc)
        · exact ⟨q, hq, c, hc, hcq⟩
      obtain ⟨r, r1, hr, hr1, hmem, hmem1, hdom⟩ := ih hrest
      exact ⟨r, r1, by simp [hasPriorityRemote, hin, hr], by simp [hasPriorityRemote, hin1, hr1],
        hmem, hmem1, hdom⟩

/-- C8, as stated, fails: `origin` and `upstream` both on `gitlab.com`, preference
`gitlab.com`. The two orders of the candidates give two different remotes. -/
theorem selectUseRemote_order_dependent :
    List.Perm [(⟨"gitlab.com", ["origin"]⟩ : RemoteInfo), ⟨"gitlab.com", ["upstream"]⟩]
        [⟨"gitlab.com", ["upstream"]⟩, ⟨"gitlab.com", ["origin"]⟩]
      ∧ (selectUseRemote ⟨fun _ _ => ("", none), fun _ _ => none⟩
          ⟨⟨["gitlab.com"], []⟩, [], [], []⟩
          [⟨"gitlab.com", ["origin"]⟩, ⟨"gitlab.com", ["upstream"]⟩]).1
        = .ok ⟨"gitlab.com", ["origin"]⟩
      ∧ (selectUseRemote ⟨fun _ _ => ("", none), fun _ _ => none⟩
          ⟨⟨["gitlab.com"], []⟩, [], [], []⟩
          [⟨"gitlab.com", ["upstream"]⟩, ⟨"gitlab.com", ["origin"]⟩]).1
        = .ok ⟨"gitlab.com", ["upstream"]⟩
      ∧ (⟨"gitlab.com", ["origin"]⟩ : RemoteInfo) ≠ ⟨"gitlab.com", ["upstream"]⟩ :=
  ⟨List.Perm.swap _ _ _, by decide, by decide, by decide⟩

/-- C8, amended: for every permutation of the candidates (two or more, some candidate's domain
preferred) and the same `preferredDomains`, `hasPriorityRemote` and `selectUseRemote` return
remotes with the same domain, the state untouched both times; they return the same remote
when no two candidates share a domain. -/
theorem selectUseRemote_perm (env : Env) (st : State) (rs rs1 : List RemoteInfo)
    (_hlen : 2 ≤ rs.length) (hperm : rs.Perm rs1)
    (hmatch : ∃ p ∈ st.conf.PreferredDomains, ∃ c ∈ rs, c.Domain = p) :
    ∃ r r1, hasPriorityRemote rs st.conf.PreferredDomains = some r
      ∧ hasPriorityRemote rs1 st.conf.PreferredDomains = some r1
      ∧ selectUseRemote env st rs = (.ok r, st)
      ∧ selectUseRemote env st rs1 = (.ok r1, st)
      ∧ r.Domain = r1.Domain
      ∧ ((rs.map RemoteInfo.Domain).Nodup → r = r1) := by
  obtain ⟨r, r1, hr, hr1, hmem, hmem1, hdom⟩ :=
    hasPriorityRemote_perm rs rs1 st.conf.PreferredDomains hperm hmatch
  refine ⟨r, r1, hr, hr1, by simp [selectUseRemote, hr], by simp [selectUseRemote, hr1],
    hdom, ?_⟩
  intro hnodup
  exact List.inj_on_of_nodup_map hnodup hmem hmem1 hdom

/-- C8, amended, at two candidates with different domains in both orders. -/
theorem selectUseRemote_perm_witness :
    ∃ r r1, hasPriorityRemote [⟨"gitlab.a.com", []⟩, ⟨"gitlab.b.com", []⟩] ["gitlab.b.com"] = some r
      ∧ hasPriorityRemote [⟨"gitlab.b.com", []⟩, ⟨"gitlab.a.com", []⟩] ["gitlab.b.com"] = some r1
      ∧ selectUseRemote ⟨fun _ _ => ("", none), fun _ _ => none⟩
          ⟨⟨["gitlab.b.com"], []⟩, [], [], []⟩ [⟨"gitlab.a.com", []⟩, ⟨"gitlab.b.com", []⟩]
        = (.ok r, ⟨⟨["gitlab.b.com"], []⟩, [], [], []⟩)
      ∧ selectUseRemote ⟨fun _ _ => ("", none), fun _ _ => none⟩
          ⟨⟨["gitlab.b.com"], []⟩, [], [], []⟩ [⟨"gitlab.b.com", []⟩, ⟨"gitlab.a.com", []⟩]
        = (.ok r1, ⟨⟨["gitlab.b.com"], []⟩, [], [], []⟩)
      ∧ r.Domain = r1.Domain
      ∧ (([(⟨"gitlab.a.com", []⟩ : RemoteInfo), ⟨"gitlab.b.com", []⟩].map
            RemoteInfo.Domain).Nodup → r = r1) :=
  selectUseRemote_perm ⟨fun _ _ => ("", none), fun _ _ => none⟩
    ⟨⟨["gitlab.b.com"], []⟩, [], [], []⟩ [⟨"gitlab.a.com", []⟩, ⟨"gitlab.b.com", []⟩]
    [⟨"gitlab.b.com", []⟩, ⟨"gitlab.a.com", []⟩] (by decide) (List.Perm.swap _ _ _)
    ⟨"gitlab.b.com", by simp, ⟨"gitlab.b.com", []⟩, by simp, rfl⟩

/-! ### Reading the answer to the menu -/

theorem digitChar_spec :
    ∀ d : Nat, d < 10 → (Nat.digitChar d).isDigit = true ∧ (Nat.digitChar d).toNat - 48 = d := by
  decide

theorem atoiDigits_toDigitsCore (fuel : Nat) :
    ∀ (n : Nat) (ds : List Char), n < fuel →
      strconv.atoiDigits (Nat.toDigitsCore 10 fuel n ds) 0 = strconv.atoiDigits ds n := by
  induction fuel with
  | zero => intro n ds h; omega
  | succ fuel ih =>
    intro n ds h
    obtain ⟨hd, hv⟩ := digitChar_spec (n % 10) (Nat.mod_lt _ (by decide))
    by_cases h0 : n / 10 = 0
    · simp only [Nat.toDigitsCore, h0, if_true, strconv.atoiDigits, hd, hv]
      congr 1
      omega
    · simp only [Nat.toDigitsCore, h0, if_false]
      rw [ih (n / 10) _ (by omega)]
      simp only [strconv.atoiDigits, hd, if_true, hv]
      congr 1
      omega

theorem atoiDigits_toDigits (n : Nat) :
    strconv.atoiDigits (Nat.toDigits 10 n) 0 = some n := by
  unfold Nat.toDigits
  rw [atoiDigits_toDigitsCore (n + 1) n [] (by omega)]
  rfl

theorem atoiDigits_all_digits {l : List Char} {n m : Nat}
    (h : strconv.atoiDigits l n = some m) : l.all Char.isDigit = true := by
  induction l generalizing n with
  | nil => rfl
  | cons c cs ih =>
    by_cases hc : c.isDigit = true
    · simp only [strconv.atoiDigits, hc, if_true] at h
      simp [hc, List.all_cons]
      simpa using ih h
    · simp [strconv.atoiDigits, hc] at h

theorem toDigitsCore_ne_nil (fuel : Nat) :
    ∀ (n : Nat) (ds : List Char), ds ≠ [] → Nat.toDigitsCore 10 fuel n ds ≠ [] := by
  induction fuel with
  | zero => intro n ds h; simpa [Nat.toDigitsCore] using h
  | succ fuel ih =>
    intro n ds h
    by_cases h0 : n / 10 = 0
    · simp [Nat.toDigitsCore, h0]
    · simp only [Nat.toDigitsCore, h0, if_false]
      exact ih _ _ (by simp)

theorem toDigits_ne_nil (n : Nat) : Nat.toDigits 10 n ≠ [] := by
  unfold Nat.toDigits
  by_cases h0 : n / 10 = 0
  · simp [Nat.toDigitsCore, h0]
  · simp only [Nat.toDigitsCore, h0, if_false]
    exact toDigitsCore_ne_nil _ _ _ (by simp)

/-- The decimal numeral of a natural number is read back by `strconv.Atoi`: the number itself
when it fits the type `int`, an error otherwise. -/
theorem Atoi_toString (n : Nat) :
    strconv.Atoi (toString n)
      = if (n : Int) ≤ strconv.maxInt then .ok (n : Int)
        else .error (Error.num (toString n)) := by
  have hlist : (toString n).toList = Nat.toDigits 10 n := rfl
  have hparse := atoiDigits_toDigits n
  have hall := atoiDigits_all_digits hparse
  have hne := toDigits_ne_nil n
  unfold strconv.Atoi
  rw [hlist]
  match hd : Nat.toDigits 10 n with
  | [] => exact absurd hd hne
  | c :: cs =>
    rw [hd] at hparse hall
    have hc : c.isDigit = true := by
      simp [List.all_cons] at hall
      exact hall.1
    have hminus : c ≠ '-' := by
      intro hc1
      rw [hc1] at hc
      exact absurd hc (by decide)
    have hplus : c ≠ '+' := by
      intro hc1
      rw [hc1] at hc
      exact absurd hc (by decide)
    have hmin : ¬ ((n : Int) < strconv.minInt) := by
      unfold strconv.minInt
      omega
    simp only [hminus, hplus, or_self, if_false, hparse, hmin, false_or]
    by_cases hle : (n : Int) ≤ strconv.maxInt
    · simp [hle, not_lt.mpr hle]
    · simp [hle, not_le.mp hle]

theorem atoiDigits_none_of_not_all {l : List Char} (n : Nat)
    (h : l.all Char.isDigit = false) : strconv.atoiDigits l n = none := by
  cases hres : strconv.atoiDigits l n with
  | none => rfl
  | some m =>
    rw [atoiDigits_all_digits hres] at h
    cases h

/-- A string that does not read as an integer is a syntax error for `strconv.Atoi`. -/
theorem Atoi_not_integer {text : String} (h : isIntegerText text = false) :
    strconv.Atoi text = .error (Error.num text) := by
  unfold isIntegerText at h
  unfold strconv.Atoi
  match hl : text.toList with
  | [] => rfl
  | c :: cs =>
    rw [hl] at h
    simp only at h
    by_cases hs : c = '-' ∨ c = '+'
    · simp only [hs, if_true] at h ⊢
      cases cs with
      | nil => rfl
      | cons d ds =>
        have hall : (d :: ds).all Char.isDigit = false := by simpa using h
        simp only [atoiDigits_none_of_not_all 0 hall]
    · simp only [hs, if_false] at h ⊢
      simp only [atoiDigits_none_of_not_all 0 h]

theorem showRemotes_frame (rs : List RemoteInfo) :
    ∀ (i : Nat) (st : State), (showRemotes rs i st).conf = st.conf
      ∧ (showRemotes rs i st).asked = st.asked ∧ (showRemotes rs i st).written = st.written := by
  induction rs with
  | nil => intro i st; simp [showRemotes]
  | cons r rest ih =>
    intro i st
    simp only [showRemotes]
    obtain ⟨h1, h2, h3⟩ := ih (i + 1) (uiMessage st (toString (i + 1) ++ ") " ++ r.Domain))
    exact ⟨h1, h2, h3⟩

/-- The state in which `inputUseRemote` returns once the prompt has been answered: the menu
shown and the prompt logged. -/
theorem inputUseRemote_state (env : Env) (st : State) (rs : List RemoteInfo) :
    (inputUseRemote env st rs).2.conf = st.conf
      ∧ (inputUseRemote env st rs).2.written = st.written
      ∧ (inputUseRemote env st rs).2.asked = st.asked ++ ["Please choice target domain :"] := by
  obtain ⟨h1, h2, h3⟩ := showRemotes_frame rs 0
    (uiMessage st "That repository existing multi gitlab remote repository.")
  have h1a : (showRemotes rs 0
      (uiMessage st "That repository existing multi gitlab remote repository.")).conf
      = st.conf := h1
  have h2a : (showRemotes rs 0
      (uiMessage st "That repository existing multi gitlab remote repository.")).asked
      = st.asked := h2
  have h3a : (showRemotes rs 0
      (uiMessage st "That repository existing multi gitlab remote repository.")).written
      = st.written := h3
  unfold inputUseRemote
  simp only [uiAsk]
  split
  · rename_i heq
    simp only [Prod.mk.injEq] at heq
    obtain ⟨_, rfl⟩ := heq
    exact ⟨h1a, h3a, by simp only [h2a]⟩
  · rename_i heq
    simp only [Prod.mk.injEq] at heq
    obtain ⟨_, rfl⟩ := heq
    split
    · exact ⟨h1a, h3a, by simp only [h2a]⟩
    · split
      · exact ⟨h1a, h3a, by simp only [h2a]⟩
      · exact ⟨h1a, h3a, by simp only [h2a]⟩

theorem inputUseRemote_parse_error (env : Env) (st : State) (rs : List RemoteInfo)
    (text : String) (e : Error)
    (hask : env.ask st.asked.length "Please choice target domain :" = (text, none))
    (hatoi : strconv.Atoi text = .error e) :
    (inputUseRemote env st rs).1 = .error (Error.errorf "Failed parse number. %v" e) := by
  have h2 := (showRemotes_frame rs 0
    (uiMessage st "That repository existing multi gitlab remote repository.")).2.1
  have h2a : (showRemotes rs 0
      (uiMessage st "That repository existing multi gitlab remote repository.")).asked
      = st.asked := h2
  unfold inputUseRemote
  simp only [uiAsk, h2a, hask, hatoi]

theorem inputUseRemote_out_of_range (env : Env) (st : State) (rs : List RemoteInfo)
    (text : String) (z : Int)
    (hask : env.ask st.asked.length "Please choice target domain :" = (text, none))
    (hatoi : strconv.Atoi text = .ok z) (hz : z < 1 ∨ z > (rs.length : Int)) :
    (inputUseRemote env st rs).1 = .error (Error.invalidNumber z) := by
  have h2 := (showRemotes_frame rs 0
    (uiMessage st "That repository existing multi gitlab remote repository.")).2.1
  have h2a : (showRemotes rs 0
      (uiMessage st "That repository existing multi gitlab remote repository.")).asked
      = st.asked := h2
  unfold inputUseRemote
  simp only [uiAsk, h2a, hask, hatoi, dif_pos hz]

theorem inputUseRemote_choice (env : Env) (st : State) (rs : List RemoteInfo)
    (text : String) (k : Nat)
    (hask : env.ask st.asked.length "Please choice target domain :" = (text, none))
    (hatoi : strconv.Atoi text = .ok (k : Int)) (h1 : 1 ≤ k) (hk : k ≤ rs.length) :
    ∃ r, rs[k - 1]? = some r ∧ (inputUseRemote env st rs).1 = .ok r := by
  have h2 := (showRemotes_frame rs 0
    (uiMessage st "That repository existing multi gitlab remote repository.")).2.1
  have h2a : (showRemotes rs 0
      (uiMessage st "That repository existing multi gitlab remote repository.")).asked
      = st.asked := h2
  have hz : ¬ ((k : Int) < 1 ∨ (k : Int) > (rs.length : Int)) := by omega
  have hidx : ((k : Int) - 1).toNat = k - 1 := by omega
  have hlt : k - 1 < rs.length := by omega
  refine ⟨rs[k - 1], by simp [hlt], ?_⟩
  unfold inputUseRemote
  simp only [uiAsk, h2a, hask, hatoi, dif_neg hz]
  simp [List.get_eq_getElem, hidx]

/-- The three kinds of answer that `inputUseRemote` turns down: `0`, the numeral of one more
than the number of candidates, and a text that does not read as an integer. -/
theorem inputUseRemote_rejects (env : Env) (st : State) (rs : List RemoteInfo) (text : String)
    (hask : env.ask st.asked.length "Please choice target domain :" = (text, none))
    (hbad : text = "0" ∨ text = toString (rs.length + 1) ∨ isIntegerText text = false) :
    ∃ err, (inputUseRemote env st rs).1 = .error err := by
  rcases hbad with h0 | hn | hni
  · subst h0
    exact ⟨_, inputUseRemote_out_of_range env st rs "0" 0 hask (by decide) (by omega)⟩
  · subst hn
    have hat := Atoi_toString (rs.length + 1)
    by_cases hle : ((rs.length + 1 : Nat) : Int) ≤ strconv.maxInt
    · rw [if_pos hle] at hat
      exact ⟨_, inputUseRemote_out_of_range env st rs _ _ hask hat (by omega)⟩
    · rw [if_neg hle] at hat
      exact ⟨_, inputUseRemote_parse_error env st rs _ _ hask hat⟩
  · exact ⟨_, inputUseRemote_parse_error env st rs _ _ hask (Atoi_not_integer hni)⟩

theorem selectUseRemote_of_input_error (env : Env) (st : State) (rs : List RemoteInfo)
    (err : Error) (hpr : hasPriorityRemote rs st.conf.PreferredDomains = none)
    (hin : (inputUseRemote env st rs).1 = .error err) :
    selectUseRemote env st rs
      = (.error (Error.errorf "Failed choise gitlab remote. %v" err),
          (inputUseRemote env st rs).2) := by
  rcases h : inputUseRemote env st rs with ⟨res, st1⟩
  rw [h] at hin
  simp only at hin
  subst hin
  simp only [selectUseRemote, hpr, h]

theorem selectUseRemote_of_input_ok (env : Env) (st : State) (rs : List RemoteInfo)
    (r : RemoteInfo) (hpr : hasPriorityRemote rs st.conf.PreferredDomains = none)
    (hin : (inputUseRemote env st rs).1 = .ok r) :
    (selectUseRemote env st rs).2.conf = AddRepository st.conf r.Domain
      ∧ (selectUseRemote env st rs).2.written = st.written ++ [AddRepository st.conf r.Domain]
      ∧ (selectUseRemote env st rs).2.asked = st.asked ++ ["Please choice target domain :"]
      ∧ (selectUseRemote env st rs).1
          = match env.write st.written.length (AddRepository st.conf r.Domain) with
            | none => .ok r
            | some e =>
              .error (Error.errorf "Failed update config of repository priority. %v" e) := by
  obtain ⟨hc, hw, ha⟩ := inputUseRemote_state env st rs
  rcases h : inputUseRemote env st rs with ⟨res, st1⟩
  rw [h] at hin hc hw ha
  simp only at hin hc hw ha
  subst hin
  simp only [selectUseRemote, hpr, h, confWrite, hc, hw]
  cases hwr : env.write st.written.length (AddRepository st.conf r.Domain) with
  | none => simp [ha]
  | some e => simp [ha]

/-- C2, as stated, fails: two candidates, no preference, the answer `1`, and a configuration
file that cannot be written. `selectUseRemote` returns no remote but the write error, having
appended the domain in memory. -/
theorem selectUseRemote_write_failure :
    (selectUseRemote ⟨fun _ _ => ("1", none), fun _ _ => some (Error.ext "read-only file")⟩
        ⟨⟨[], []⟩, [], [], []⟩ [⟨"gitlab.a.com", []⟩, ⟨"gitlab.b.com", []⟩]).1
      = .error (Error.errorf "Failed update config of repository priority. %v"
          (Error.ext "read-only file"))
    ∧ (selectUseRemote ⟨fun _ _ => ("1", none), fun _ _ => some (Error.ext "read-only file")⟩
        ⟨⟨[], []⟩, [], [], []⟩ [⟨"gitlab.a.com", []⟩, ⟨"gitlab.b.com", []⟩]).1
      ≠ .ok ⟨"gitlab.a.com", []⟩ := by
  decide

/-- C2, amended: two or more candidates, no preferred domain among their domains, the prompt
answered with `text`. On `0`, on the numeral of one more than the number of candidates and on
a text that does not read as an integer, `selectUseRemote` fails and returns no remote
(configuration and write log as before). On the numeral of `k` with `1 ≤ k ≤ n` the domain of
the `k`-th candidate is appended once to `preferredDomains`, one write of that configuration
is attempted, and the `k`-th candidate is returned if the write succeeds; if the write fails
the result is the write error and no remote. -/
theorem selectUseRemote_prompted (env : Env) (st : State) (rs : List RemoteInfo)
    (text : String) (_hlen : 2 ≤ rs.length)
    (hnone : ∀ p ∈ st.conf.PreferredDomains, ∀ c ∈ rs, c.Domain ≠ p)
    (hask : env.ask st.asked.length "Please choice target domain :" = (text, none)) :
    ((text = "0" ∨ text = toString (rs.length + 1) ∨ isIntegerText text = false) →
        ∃ err, (selectUseRemote env st rs).1 = .error err
          ∧ (selectUseRemote env st rs).2.conf = st.conf
          ∧ (selectUseRemote env st rs).2.written = st.written)
    ∧ (∀ k : Nat, 1 ≤ k → k ≤ rs.length → rs.length < 2 ^ 63 → text = toString k →
        ∃ r, rs[k - 1]? = some r
          ∧ (selectUseRemote env st rs).2.conf.PreferredDomains
              = st.conf.PreferredDomains ++ [r.Domain]
          ∧ (selectUseRemote env st rs).2.conf.Tokens = st.conf.Tokens
          ∧ (selectUseRemote env st rs).2.written
              = st.written ++ [(selectUseRemote env st rs).2.conf]
          ∧ (env.write st.written.length (selectUseRemote env st rs).2.conf = none →
              (selectUseRemote env st rs).1 = .ok r)
          ∧ (∀ e, env.write st.written.length (selectUseRemote env st rs).2.conf = some e →
              (selectUseRemote env st rs).1
                = .error (Error.errorf "Failed update config of repository priority. %v" e))) := by
  have hpr := hasPriorityRemote_none.mpr hnone
  constructor
  · intro hbad
    obtain ⟨err, herr⟩ := inputUseRemote_rejects env st rs text hask hbad
    obtain ⟨hc, hw, _⟩ := inputUseRemote_state env st rs
    rw [selectUseRemote_of_input_error env st rs err hpr herr]
    exact ⟨_, rfl, hc, hw⟩
  · intro k h1 hk hlen htext
    have hfit : ((k : Nat) : Int) ≤ strconv.maxInt := by
      unfold strconv.maxInt
      omega
    have hat : strconv.Atoi text = .ok (k : Int) := by
      rw [htext, Atoi_toString, if_pos hfit]
    obtain ⟨r, hr, hin⟩ := inputUseRemote_choice env st rs text k hask hat h1 hk
    obtain ⟨hc, hw, _, hres⟩ := selectUseRemote_of_input_ok env st rs r hpr hin
    refine ⟨r, hr, by rw [hc]; rfl, by rw [hc]; rfl, by rw [hw, hc], ?_, ?_⟩
    · intro hwr
      rw [hc] at hwr
      rw [hres, hwr]
    · intro e hwr
      rw [hc] at hwr
      rw [hres, hwr]

/-- C2, amended, at two candidates and the answer `2`, the write succeeding. -/
theorem selectUseRemote_prompted_witness :
    (selectUseRemote ⟨fun _ _ => ("2", none), fun _ _ => none⟩ ⟨⟨[], []⟩, [], [], []⟩
        [⟨"gitlab.a.com", []⟩, ⟨"gitlab.b.com", []⟩]).1 = .ok ⟨"gitlab.b.com", []⟩
    ∧ (selectUseRemote ⟨fun _ _ => ("2", none), fun _ _ => none⟩ ⟨⟨[], []⟩, [], [], []⟩
        [⟨"gitlab.a.com", []⟩, ⟨"gitlab.b.com", []⟩]).2.conf.PreferredDomains
      = [] ++ ["gitlab.b.com"] := by
  obtain ⟨r, hr, hp, _, _, hok, _⟩ :=
    (selectUseRemote_prompted ⟨fun _ _ => ("2", none), fun _ _ => none⟩ ⟨⟨[], []⟩, [], [], []⟩
      [⟨"gitlab.a.com", []⟩, ⟨"gitlab.b.com", []⟩] "2" (by decide) (by simp) rfl).2
      2 (by decide) (by decide) (by decide) (by decide)
  have hrb : r = ⟨"gitlab.b.com", []⟩ := by
    simp at hr
    exact hr.symm
  subst hrb
  exact ⟨hok rfl, hp⟩

/-! ### Token lookup -/

theorem lookupToken_append (domain : String) (l l1 : List MapItem) :
    ∀ token, lookupToken domain (l ++ l1) token
      = (lookupToken domain l token).bind (lookupToken domain l1) := by
  induction l with
  | nil => intro token; simp [lookupToken]
  | cons item rest ih =>
    intro token
    simp only [List.cons_append, lookupToken]
    cases assertString item.Key with
    | none => rfl
    | some key =>
      by_cases hk : key = domain
      · simp only [hk, if_true]
        cases assertString item.Value with
        | none => rfl
        | some value => exact ih value
      · simp only [hk, if_false]
        exact ih token

/-- On a mapping whose keys are strings and whose every item for `domain` holds the string
`v`, the lookup loop ends with `v` if there is such an item and with the initial token if
there is none. -/
theorem lookupToken_uniform (domain v : String) (l : List MapItem)
    (hkeys : ∀ item ∈ l, ∃ k, item.Key = Value.str k)
    (hvals : ∀ item ∈ l, item.Key = Value.str domain → item.Value = Value.str v) :
    ∀ token, lookupToken domain l token
      = some (if l.any (fun item => decide (item.Key = Value.str domain)) then v else token) := by
  induction l with
  | nil => intro token; simp [lookupToken]
  | cons item rest ih =>
    intro token
    have ih1 := ih (fun it hit => hkeys it (List.mem_cons_of_mem _ hit))
      (fun it hit => hvals it (List.mem_cons_of_mem _ hit))
    obtain ⟨k, hk⟩ := hkeys item (List.mem_cons_self _ _)
    by_cases hd : k = domain
    · have hval := hvals item (List.mem_cons_self _ _) (by rw [hk, hd])
      simp only [lookupToken, hk, hval, assertString, hd, if_true, ih1 v]
      simp [hk, hd]
    · have hne : ¬ (Value.str k = Value.str domain) := by
        intro h
        exact hd (Value.str.inj h)
      simp only [lookupToken, hk, assertString, hd, if_false, ih1 token]
      simp [hk, hne]

/-- The stored-token path of `getPrivateToken`: the lookup ends with a non-empty token, which
is returned with the state as it was. -/
theorem getPrivateToken_of_lookup (env : Env) (st : State) (domain v : String)
    (hkeys : ∀ item ∈ st.conf.Tokens, ∃ k, item.Key = Value.str k)
    (hvals : ∀ item ∈ st.conf.Tokens, item.Key = Value.str domain → item.Value = Value.str v)
    (hmem : ∃ item ∈ st.conf.Tokens, item.Key = Value.str domain)
    (hv : v ≠ "") :
    getPrivateToken env st domain = some (.ok v, st) := by
  have hany : st.conf.Tokens.any (fun item => decide (item.Key = Value.str domain)) = true := by
    obtain ⟨item, hitem, hkey⟩ := hmem
    exact List.any_eq_true.mpr ⟨item, hitem, by simp [hkey]⟩
  have hlook := lookupToken_uniform domain v st.conf.Tokens hkeys hvals ""
  rw [hany, if_pos rfl] at hlook
  simp only [getPrivateToken, hlook, hv, if_false]

/-- C5, as stated, fails. A mapping that holds the token `tok` for `gitlab.com` next to an item
with the integer key `7`: the type assertion on that key panics and nothing is returned. A
mapping that holds `tok` for `gitlab.com` and, further down, an empty item for the same
domain: the later item wins, the user is asked and the configuration is written, with an item
added to the mapping. -/
theorem getPrivateToken_stored_token_not_returned :
    getPrivateToken ⟨fun _ _ => ("typed", none), fun _ _ => none⟩
        ⟨⟨[], [⟨Value.str "gitlab.com", Value.str "tok"⟩, ⟨Value.int 7, Value.str "x"⟩]⟩,
          [], [], []⟩ "gitlab.com" = none
      ∧ getPrivateToken ⟨fun _ _ => ("typed", none), fun _ _ => none⟩
          ⟨⟨[], [⟨Value.str "gitlab.com", Value.str "tok"⟩,
                 ⟨Value.str "gitlab.com", Value.str ""⟩]⟩, [], [], []⟩ "gitlab.com"
        = some (.ok "",
            ⟨⟨[], [⟨Value.str "gitlab.com", Value.str "tok"⟩,
                   ⟨Value.str "gitlab.com", Value.str ""⟩,
                   ⟨Value.str "gitlab.com", Value.str "typed"⟩]⟩, [],
              ["Please input GitLab private token :"],
              [⟨[], [⟨Value.str "gitlab.com", Value.str "tok"⟩,
                     ⟨Value.str "gitlab.com", Value.str ""⟩,
                     ⟨Value.str "gitlab.com", Value.str "typed"⟩]⟩]⟩) := by
  decide

/-- C5, amended: when every key of the token mapping is a string and every item stored for the
domain (there is one) holds the same non-empty string `v`, `getPrivateToken` returns `v` with
no error and leaves the state as it was: nothing asked, nothing written, the mapping unchanged
(no item added, none overwritten). -/
theorem getPrivateToken_stored (env : Env) (st : State) (domain v : String)
    (hkeys : ∀ item ∈ st.conf.Tokens, ∃ k, item.Key = Value.str k)
    (hvals : ∀ item ∈ st.conf.Tokens, item.Key = Value.str domain → item.Value = Value.str v)
    (hmem : ∃ item ∈ st.conf.Tokens, item.Key = Value.str domain)
    (hv : v ≠ "") :
    getPrivateToken env st domain = some (.ok v, st)
      ∧ (∀ r st1, getPrivateToken env st domain = some (r, st1) →
          r = .ok v ∧ st1.asked = st.asked ∧ st1.written = st.written
            ∧ st1.conf.Tokens = st.conf.Tokens) := by
  have h := getPrivateToken_of_lookup env st domain v hkeys hvals hmem hv
  refine ⟨h, ?_⟩
  intro r st1 hr
  rw [h] at hr
  simp only [Option.some.injEq, Prod.mk.injEq] at hr
  obtain ⟨rfl, rfl⟩ := hr
  exact ⟨rfl, rfl, rfl, rfl⟩

/-- C5, amended, at a mapping that holds tokens for two domains. -/
theorem getPrivateToken_stored_witness :
    getPrivateToken ⟨fun _ _ => ("typed", none), fun _ _ => none⟩
        ⟨⟨[], [⟨Value.str "gitlab.a.com", Value.str "tokA"⟩,
               ⟨Value.str "gitlab.b.com", Value.str "tokB"⟩]⟩, [], [], []⟩ "gitlab.b.com"
      = some (.ok "tokB",
          ⟨⟨[], [⟨Value.str "gitlab.a.com", Value.str "tokA"⟩,
                 ⟨Value.str "gitlab.b.com", Value.str "tokB"⟩]⟩, [], [], []⟩) :=
  (getPrivateToken_stored ⟨fun _ _ => ("typed", none), fun _ _ => none⟩
    ⟨⟨[], [⟨Value.str "gitlab.a.com", Value.str "tokA"⟩,
           ⟨Value.str "gitlab.b.com", Value.str "tokB"⟩]⟩, [], [], []⟩ "gitlab.b.com" "tokB"
    (by
      intro item hitem
      simp only [List.mem_cons, List.mem_singleton, List.not_mem_nil, or_false] at hitem
      rcases hitem with rfl | rfl <;> exact ⟨_, rfl⟩)
    (by
      intro item hitem hkey
      simp only [List.mem_cons, List.mem_singleton, List.not_mem_nil, or_false] at hitem
      rcases hitem with rfl | rfl
      · exact absurd hkey (by decide)
      · rfl)
    ⟨⟨Value.str "gitlab.b.com", Value.str "tokB"⟩, by simp, rfl⟩ (by decide)).1

/-- What `getPrivateToken` does when the lookup ends with the empty token and the prompt is
answered with `t`: the item `(domain, t)` is added, one write is attempted, and the value
returned on a successful write is the outer `token`, the empty string. -/
theorem getPrivateToken_prompted (env : Env) (st : State) (domain t : String)
    (hlook : lookupToken domain st.conf.Tokens "" = some "")
    (hask : env.ask st.asked.length "Please input GitLab private token :" = (t, none)) :
    getPrivateToken env st domain
      = some ((match env.write st.written.length (AddToken st.conf domain t) with
              | none => .ok ""
              | some e => .error (Error.errorf "Failed update config of private token. %s" e)),
          { conf := AddToken st.conf domain t,
            messages := st.messages,
            asked := st.asked ++ ["Please input GitLab private token :"],
            written := st.written ++ [AddToken st.conf domain t] }) := by
  simp only [getPrivateToken, hlook, if_true, uiAsk, hask, confWrite]
  cases env.write st.written.length (AddToken st.conf domain t) <;> rfl

/-- C3, the code at the failing input: no stored token for `gitlab.com`, the prompt answered
with `secret`, the write succeeding. The token `secret` is stored under the domain and
written, but the value returned is the empty string, with no error. -/
theorem getPrivateToken_returns_empty :
    getPrivateToken ⟨fun _ _ => ("secret", none), fun _ _ => none⟩
        ⟨⟨[], []⟩, [], [], []⟩ "gitlab.com"
      = some (.ok "",
          ⟨⟨[], [⟨Value.str "gitlab.com", Value.str "secret"⟩]⟩, [],
            ["Please input GitLab private token :"],
            [⟨[], [⟨Value.str "gitlab.com", Value.str "secret"⟩]⟩]⟩) := by
  decide

theorem lookupToken_empty_of_uniform (domain : String) (l : List MapItem)
    (hkeys : ∀ item ∈ l, ∃ k, item.Key = Value.str k)
    (hvals : ∀ item ∈ l, item.Key = Value.str domain → item.Value = Value.str "") :
    lookupToken domain l "" = some "" := by
  rw [lookupToken_uniform domain "" l hkeys hvals ""]
  simp

theorem lookupToken_after_AddToken (conf : Config) (domain t : String)
    (hlook : lookupToken domain conf.Tokens "" = some "") :
    lookupToken domain (AddToken conf domain t).Tokens "" = some t := by
  simp only [AddToken, lookupToken_append, hlook, Option.some_bind, lookupToken, assertString,
    if_true]

/-- C4, as stated, fails: no stored token, the user answers both prompts with the empty
string, the writes succeed. Both calls return the empty string, yet the second call asks and
writes again: two writes over the two calls, one of them during the second call. -/
theorem getPrivateTokenTwice_two_writes :
    (getPrivateTokenTwice ⟨fun _ _ => ("", none), fun _ _ => none⟩
        ⟨⟨[], []⟩, [], [], []⟩ "gitlab.com").map
      (fun p => (p.1.1, p.2.1, p.1.2.written.length, p.2.2.written.length,
        p.2.2.asked.length))
      = some (.ok "", .ok "", 1, 2, 2) := by
  decide

/-- C4, amended. For a token mapping whose keys are strings: when it holds the non-empty
token `v` for the domain, both calls return `v` and the state stays as it was (no prompt, no
write). When every item for the domain (if any) holds the empty string and the first prompt is
answered with a non-empty `t`, the first call adds `(domain, t)`, asks once and attempts one
write, and the second call returns `t` and leaves the state of the first call as it is: one
write over the two calls, during the first. What the first call returns is not stated. -/
theorem getPrivateTokenTwice_spec (env : Env) (st : State) (domain : String)
    (hkeys : ∀ item ∈ st.conf.Tokens, ∃ k, item.Key = Value.str k) :
    (∀ v, v ≠ "" → (∃ item ∈ st.conf.Tokens, item.Key = Value.str domain) →
        (∀ item ∈ st.conf.Tokens, item.Key = Value.str domain → item.Value = Value.str v) →
        getPrivateTokenTwice env st domain = some ((.ok v, st), (.ok v, st)))
    ∧ (∀ t, t ≠ "" →
        (∀ item ∈ st.conf.Tokens, item.Key = Value.str domain → item.Value = Value.str "") →
        env.ask st.asked.length "Please input GitLab private token :" = (t, none) →
        ∃ r1 st1, getPrivateTokenTwice env st domain = some ((r1, st1), (.ok t, st1))
          ∧ st1.conf = AddToken st.conf domain t
          ∧ st1.asked = st.asked ++ ["Please input GitLab private token :"]
          ∧ st1.written = st.written ++ [st1.conf]) := by
  constructor
  · intro v hv hmem hvals
    have h := getPrivateToken_of_lookup env st domain v hkeys hvals hmem hv
    simp only [getPrivateTokenTwice, h]
  · intro t ht hvals hask
    have hlook := lookupToken_empty_of_uniform domain st.conf.Tokens hkeys hvals
    have h1 := getPrivateToken_prompted env st domain t hlook hask
    have hlook2 := lookupToken_after_AddToken st.conf domain t hlook
    refine ⟨(match env.write st.written.length (AddToken st.conf domain t) with
        | none => .ok ""
        | some e => .error (Error.errorf "Failed update config of private token. %s" e)),
      ⟨AddToken st.conf domain t, st.messages,
        st.asked ++ ["Please input GitLab private token :"],
        st.written ++ [AddToken st.conf domain t]⟩, ?_, rfl, rfl, rfl⟩
    simp only [getPrivateTokenTwice, h1]
    simp only [getPrivateToken, hlook2, ht, if_false]

/-- C4, amended, at an empty mapping, the prompt answered with `secret`. -/
theorem getPrivateTokenTwice_spec_witness :
    ∃ r1 st1, getPrivateTokenTwice ⟨fun _ _ => ("secret", none), fun _ _ => none⟩
          ⟨⟨[], []⟩, [], [], []⟩ "gitlab.com" = some ((r1, st1), (.ok "secret", st1))
      ∧ st1.conf = AddToken ⟨[], []⟩ "gitlab.com" "secret"
      ∧ st1.asked = [] ++ ["Please input GitLab private token :"]
      ∧ st1.written = [] ++ [st1.conf] :=
  (getPrivateTokenTwice_spec ⟨fun _ _ => ("secret", none), fun _ _ => none⟩
    ⟨⟨[], []⟩, [], [], []⟩ "gitlab.com" (by simp)).2 "secret" (by decide) (by simp) rfl

/-- C9, as stated, fails: an item whose key is the integer `1`, or an item for the domain
whose value is the integer `5`, makes the lookup (and `getPrivateToken`) panic, while the
mapping without these items gives the stored token `tok`. -/
theorem getPrivateToken_panics_on_foreign_item :
    lookupToken "gitlab.com"
        [⟨Value.int 1, Value.str "x"⟩, ⟨Value.str "gitlab.com", Value.str "tok"⟩] "" = none
      ∧ getPrivateToken ⟨fun _ _ => ("", none), fun _ _ => none⟩
          ⟨⟨[], [⟨Value.int 1, Value.str "x"⟩, ⟨Value.str "gitlab.com", Value.str "tok"⟩]⟩,
            [], [], []⟩ "gitlab.com" = none
      ∧ lookupToken "gitlab.com"
        [⟨Value.str "gitlab.com", Value.str "tok"⟩, ⟨Value.str "gitlab.com", Value.int 5⟩] ""
          = none
      ∧ lookupToken "gitlab.com"
          ([⟨Value.int 1, Value.str "x"⟩, ⟨Value.str "gitlab.com", Value.str "tok"⟩].filter
            isStringPair) "" = some "tok"
      ∧ lookupToken "gitlab.com"
          ([⟨Value.str "gitlab.com", Value.str "tok"⟩,
            ⟨Value.str "gitlab.com", Value.int 5⟩].filter isStringPair) "" = some "tok" := by
  decide

/-- C9, amended: on a token mapping in which every key is a string and every value stored
under the domain is a string, the lookup does not panic, and the items that are not string
pairs (a value that is no string, under another key) are skipped: the token found is the one
found in the mapping with these items removed. -/
theorem lookupToken_skips_foreign_values (domain : String) (tokens : List MapItem)
    (hkeys : ∀ item ∈ tokens, ∃ k, item.Key = Value.str k)
    (hvals : ∀ item ∈ tokens, item.Key = Value.str domain → ∃ v, item.Value = Value.str v) :
    ∀ start, ∃ token, lookupToken domain tokens start = some token
      ∧ lookupToken domain (tokens.filter isStringPair) start = some token := by
  induction tokens with
  | nil => intro start; exact ⟨start, rfl, rfl⟩
  | cons item rest ih =>
    intro start
    have ih1 := ih (fun it hit => hkeys it (List.mem_cons_of_mem _ hit))
      (fun it hit => hvals it (List.mem_cons_of_mem _ hit))
    obtain ⟨k, hk⟩ := hkeys item (List.mem_cons_self _ _)
    by_cases hd : k = domain
    · obtain ⟨v, hv⟩ := hvals item (List.mem_cons_self _ _) (by rw [hk, hd])
      have hpair : isStringPair item = true := by simp [isStringPair, hk, hv]
      obtain ⟨token, h1, h2⟩ := ih1 v
      refine ⟨token, ?_, ?_⟩
      · simp only [lookupToken, hk, hv, assertString, hd, if_true, h1]
      · simp only [List.filter_cons, hpair, if_true, lookupToken, hk, hv, assertString, hd, h2]
    · obtain ⟨token, h1, h2⟩ := ih1 start
      refine ⟨token, ?_, ?_⟩
      · simp only [lookupToken, hk, assertString, hd, if_false, h1]
      · by_cases hpair : isStringPair item = true
        · simp only [List.filter_cons, hpair, if_true, lookupToken, hk, assertString, hd,
            if_false, h2]
        · simp only [List.filter_cons, hpair, if_false, h2]
          simpa using h2

/-- C9, amended, at a mapping with a boolean stored under another key. -/
theorem lookupToken_skips_foreign_values_witness :
    ∃ token, lookupToken "gitlab.com"
          [⟨Value.str "other", Value.bool true⟩, ⟨Value.str "gitlab.com", Value.str "tok"⟩] ""
        = some token
      ∧ lookupToken "gitlab.com"
          ([⟨Value.str "other", Value.bool true⟩,
            ⟨Value.str "gitlab.com", Value.str "tok"⟩].filter isStringPair) "" = some token :=
  lookupToken_skips_foreign_values "gitlab.com"
    [⟨Value.str "other", Value.bool true⟩, ⟨Value.str "gitlab.com", Value.str "tok"⟩]
    (by
      intro item hitem
      simp only [List.mem_cons, List.mem_singleton, List.not_mem_nil, or_false] at hitem
      rcases hitem with rfl | rfl <;> exact ⟨_, rfl⟩)
    (by
      intro item hitem hkey
      simp only [List.mem_cons, List.mem_singleton, List.not_mem_nil, or_false] at hitem
      rcases hitem with rfl | rfl
      · exact absurd hkey (by decide)
      · exact ⟨_, rfl⟩)
    ""

/-! ### Project path from a web URL, landmark scan -/

theorem scanWords_subPageWords (word : String) (i idx : Nat) :
    internal.scanWords word i internal.subPageWords idx = if isMarker word = true then i else idx := by
  by_cases h1 : word = "issues"
  · subst h1
    simp [internal.scanWords, internal.subPageWords, isMarker]
  · by_cases h2 : word = "merge_requests"
    · subst h2
      simp [internal.scanWords, internal.subPageWords, isMarker]
    · simp [internal.scanWords, internal.subPageWords, isMarker, h1, h2]

theorem scanURL_no_marker (l : List String) :
    ∀ (i idx : Nat), l.all (fun w => !isMarker w) = true → internal.scanURL l i idx = idx := by
  induction l with
  | nil => intro i idx _; rfl
  | cons word rest ih =>
    intro i idx h
    simp only [List.all_cons, Bool.and_eq_true, Bool.not_eq_true'] at h
    simp only [internal.scanURL, scanWords_subPageWords, h.1]
    exact ih (i + 1) idx h.2

theorem scanURL_last_marker (l : List String) :
    ∀ (i idx k : Nat) (w : String), l[k]? = some w → isMarker w = true →
      (l.drop (k + 1)).all (fun w1 => !isMarker w1) = true →
      internal.scanURL l i idx = i + k := by
  induction l with
  | nil => intro i idx k w hk; simp at hk
  | cons word rest ih =>
    intro i idx k w hk hw hlater
    cases k with
    | zero =>
      simp only [List.getElem?_cons_zero, Option.some.injEq] at hk
      subst hk
      simp only [internal.scanURL, scanWords_subPageWords, hw, if_true]
      simp only [Nat.zero_add, List.drop_succ_cons, List.drop_zero] at hlater
      rw [scanURL_no_marker rest (i + 1) i hlater]
      rfl
    | succ k =>
      simp only [List.getElem?_cons_succ] at hk
      simp only [List.drop_succ_cons] at hlater
      simp only [internal.scanURL]
      rw [ih (i + 1) _ k w hk hw hlater]
      omega

/-- C10, as stated, fails: `gitlab.example.com/group` has two segments and no marker, yet the
call does not return the empty string: the slice `[3:]` is out of range and the call panics. -/
theorem ParceRepositoryFullName_short_url_panics :
    strings.Split "gitlab.example.com/group" '/' = ["gitlab.example.com", "group"]
      ∧ internal.ParceRepositoryFullName "gitlab.example.com/group" = none
      ∧ internal.ParceRepositoryFullName "gitlab.example.com/group" ≠ some "" := by
  decide

/-- C10, amended: for every URL of at least three segments when split on `/`, the landmark
scan drops the first three segments and returns the remaining segments strictly before the
last segment equal to `issues` or `merge_requests`, joined with `/`; when no such segment
exists it returns the empty string. -/
theorem ParceRepositoryFullName_landmark (webURL : String)
    (hlen : 3 ≤ (strings.Split webURL '/').length) :
    (((strings.Split webURL '/').drop 3).all (fun w => !isMarker w) = true →
        internal.ParceRepositoryFullName webURL = some "")
    ∧ (∀ (k : Nat) (w : String), ((strings.Split webURL '/').drop 3)[k]? = some w →
        isMarker w = true →
        (((strings.Split webURL '/').drop 3).drop (k + 1)).all (fun w1 => !isMarker w1) = true →
        internal.ParceRepositoryFullName webURL
          = some (strings.Join (((strings.Split webURL '/').drop 3).take k) "/")) := by
  have hnot : ¬ (strings.Split webURL '/').length < 3 := by omega
  constructor
  · intro hall
    simp only [internal.ParceRepositoryFullName, hnot, if_false,
      scanURL_no_marker _ 0 0 hall, Nat.zero_le, if_true, List.take_zero]
    rfl
  · intro k w hk hw hlater
    have hscan := scanURL_last_marker _ 0 0 k w hk hw hlater
    rw [Nat.zero_add] at hscan
    have hklt : k < ((strings.Split webURL '/').drop 3).length := by
      by_contra hge
      rw [List.getElem?_eq_none (by omega)] at hk
      cases hk
    simp only [internal.ParceRepositoryFullName, hnot, if_false, hscan, Nat.le_of_lt hklt, if_true]

/-- C10, amended, at the two URLs of the spec: an issue URL gives `group/project`, a merge
request URL under a nested group gives `group/subgroup/project`. -/
theorem ParceRepositoryFullName_landmark_witness :
    3 ≤ (strings.Split "https://gitlab.example.com/group/project/issues/5" '/').length
      ∧ internal.ParceRepositoryFullName "https://gitlab.example.com/group/project/issues/5"
          = some "group/project"
      ∧ internal.ParceRepositoryFullName
          "https://gitlab.example.com/group/subgroup/project/merge_requests/3"
          = some "group/subgroup/project" :=
  ⟨by decide,
   ((ParceRepositoryFullName_landmark "https://gitlab.example.com/group/project/issues/5"
      (by decide)).2 2 "issues" (by decide) (by decide) (by decide)).trans (by decide),
   ((ParceRepositoryFullName_landmark
      "https://gitlab.example.com/group/subgroup/project/merge_requests/3"
      (by decide)).2 3 "merge_requests" (by decide) (by decide) (by decide)).trans (by decide)⟩

/-! ### The two variants side by side -/

theorem Split_five {webURL : String} (hlen : 5 ≤ (strings.Split webURL '/').length) :
    ∃ s0 s1 s2 a b tail, strings.Split webURL '/' = s0 :: s1 :: s2 :: a :: b :: tail := by
  match h : strings.Split webURL '/' with
  | [] => rw [h] at hlen; simp at hlen
  | [_] => rw [h] at hlen; simp at hlen
  | [_, _] => rw [h] at hlen; simp at hlen
  | [_, _, _] => rw [h] at hlen; simp at hlen
  | [_, _, _, _] => rw [h] at hlen; simp at hlen
  | s0 :: s1 :: s2 :: a :: b :: tail => exact ⟨s0, s1, s2, a, b, tail, rfl⟩

theorem fixed_ne_empty (a b : String) : a ++ "/" ++ b ≠ "" := by
  intro h
  have hl := congrArg String.length h
  simp only [String.length_append] at hl
  have h1 : ("/" : String).length = 1 := by decide
  have h0 : ("" : String).length = 0 := by decide
  omega

theorem fixed_ne_first (a b : String) : a ++ "/" ++ b ≠ a := by
  intro h
  have hl := congrArg String.length h
  simp only [String.length_append] at hl
  have h1 : ("/" : String).length = 1 := by decide
  omega

theorem fixed_ne_longer (a b c : String) (t : List String) :
    a ++ "/" ++ b ≠ strings.Join (a :: b :: c :: t) "/" := by
  intro h
  have hl := congrArg String.length h
  simp only [strings.Join, String.length_append] at hl
  have h1 : ("/" : String).length = 1 := by decide
  omega

/-- The landmark scan on a URL of at least three segments, in terms of the index found by the
scanning loop. -/
theorem landmark_eq_take {webURL : String} (hlen : 3 ≤ (strings.Split webURL '/').length)
    (k : Nat) (hk : k ≤ ((strings.Split webURL '/').drop 3).length)
    (hscan : internal.scanURL ((strings.Split webURL '/').drop 3) 0 0 = k) :
    internal.ParceRepositoryFullName webURL
      = some (strings.Join (((strings.Split webURL '/').drop 3).take k) "/") := by
  have hnot : ¬ (strings.Split webURL '/').length < 3 := by omega
  simp only [internal.ParceRepositoryFullName, hnot, if_false, hscan, hk, if_true]

theorem scanURL_bound (l : List String) :
    ∀ (i idx : Nat), internal.scanURL l i idx = idx
      ∨ (i ≤ internal.scanURL l i idx ∧ internal.scanURL l i idx < i + l.length) := by
  induction l with
  | nil => intro i idx; exact Or.inl rfl
  | cons word rest ih =>
    intro i idx
    simp only [internal.scanURL, scanWords_subPageWords, List.length_cons]
    by_cases hm : isMarker word = true
    · simp only [hm, if_true]
      rcases ih (i + 1) i with h | ⟨h1, h2⟩
      · right
        rw [h]
        omega
      · right
        omega
    · have hm1 : isMarker word = false := by simpa using hm
      simp only [hm1, Bool.false_eq_true, if_false]
      rcases ih (i + 1) idx with h | ⟨h1, h2⟩
      · left
        exact h
      · right
        omega

/-- C11, as stated, fails: a project named `issues`, opened at one of its issues. The URL has
seven segments and two marker segments, yet both variants return `group/issues`. -/
theorem ParceRepositoryFullName_agree_with_two_markers :
    5 ≤ (strings.Split "https://gitlab.example.com/group/issues/issues/5" '/').length
      ∧ ((strings.Split "https://gitlab.example.com/group/issues/issues/5" '/').filter
          isMarker).length = 2
      ∧ gitlab.ParceRepositoryFullName "https://gitlab.example.com/group/issues/issues/5"
          = some "group/issues"
      ∧ internal.ParceRepositoryFullName "https://gitlab.example.com/group/issues/issues/5"
          = some "group/issues" := by
  decide

/-- C11, amended: on every URL of at least five segments both variants return a result; the
results differ when no marker follows the first three segments and when the number of
segments between the first three and the last marker is not two, and they are equal when that
number is two, however many marker segments the URL has. -/
theorem ParceRepositoryFullName_variants (webURL : String)
    (hlen : 5 ≤ (strings.Split webURL '/').length) :
    ∃ fixed scan, gitlab.ParceRepositoryFullName webURL = some fixed
      ∧ internal.ParceRepositoryFullName webURL = some scan
      ∧ (((strings.Split webURL '/').drop 3).all (fun w => !isMarker w) = true → fixed ≠ scan)
      ∧ (∀ (k : Nat) (w : String), ((strings.Split webURL '/').drop 3)[k]? = some w →
          isMarker w = true →
          (((strings.Split webURL '/').drop 3).drop (k + 1)).all (fun w1 => !isMarker w1) = true →
          (k ≠ 2 → fixed ≠ scan) ∧ (k = 2 → fixed = scan)) := by
  have hlen3 : 3 ≤ (strings.Split webURL '/').length := by omega
  obtain ⟨s0, s1, s2, a, b, tail, hsp⟩ := Split_five hlen
  have hrest : (strings.Split webURL '/').drop 3 = a :: b :: tail := by rw [hsp]; rfl
  have hfixed : gitlab.ParceRepositoryFullName webURL = some (a ++ "/" ++ b) := by
    simp [gitlab.ParceRepositoryFullName, hsp, strings.Join]
  have hbound : internal.scanURL ((strings.Split webURL '/').drop 3) 0 0
      ≤ ((strings.Split webURL '/').drop 3).length := by
    rcases scanURL_bound ((strings.Split webURL '/').drop 3) 0 0 with h | ⟨_, h⟩
    · rw [h]
      exact Nat.zero_le _
    · omega
  have hscan := landmark_eq_take hlen3 _ hbound rfl
  refine ⟨_, _, hfixed, hscan, ?_, ?_⟩
  · intro hall
    rw [scanURL_no_marker _ 0 0 hall, List.take_zero]
    exact fixed_ne_empty a b
  · intro k w hk hw hlater
    have hidx := scanURL_last_marker _ 0 0 k w hk hw hlater
    rw [Nat.zero_add] at hidx
    rw [hidx]
    rw [hrest] at hk ⊢
    match k, hk with
    | 0, _ => exact ⟨fun _ => fixed_ne_empty a b, fun h => absurd h (by decide)⟩
    | 1, _ => exact ⟨fun _ => fixed_ne_first a b, fun h => absurd h (by decide)⟩
    | 2, _ => exact ⟨fun h => absurd rfl h, fun _ => rfl⟩
    | k + 3, hk =>
      refine ⟨fun _ => ?_, fun h => absurd h (by omega)⟩
      cases tail with
      | nil => simp at hk
      | cons c t => exact fixed_ne_longer a b c (t.take k)

/-- C11, amended, at the nested-group URL of the spec: the last marker comes after three
segments, and the two results differ. -/
theorem ParceRepositoryFullName_variants_witness :
    5 ≤ (strings.Split "https://gitlab.example.com/group/subgroup/project/merge_requests/3"
          '/').length
      ∧ gitlab.ParceRepositoryFullName
          "https://gitlab.example.com/group/subgroup/project/merge_requests/3"
        ≠ internal.ParceRepositoryFullName
          "https://gitlab.example.com/group/subgroup/project/merge_requests/3" := by
  refine ⟨by decide, ?_⟩
  obtain ⟨fixed, scan, hf, hs, _, hk⟩ := ParceRepositoryFullName_variants
    "https://gitlab.example.com/group/subgroup/project/merge_requests/3" (by decide)
  rw [hf, hs]
  intro h
  exact (hk 3 "merge_requests" (by decide) (by decide) (by decide)).1 (by decide)
    (Option.some.inj h)

/-! ### Malformed URLs -/

/-- C12, as stated, fails: `https://gitlab.example.com/group` has four segments, the
fixed-width variant panics on it, but the landmark scan returns the empty path. -/
theorem ParceRepositoryFullName_short_url_empty_path :
    (strings.Split "https://gitlab.example.com/group" '/').length = 4
      ∧ gitlab.ParceRepositoryFullName "https://gitlab.example.com/group" = none
      ∧ internal.ParceRepositoryFullName "https://gitlab.example.com/group" = some "" := by
  decide

/-- C12, amended: on every URL of fewer than five segments the fixed-width variant returns no
path (index out of range); the landmark scan returns no path when the URL has fewer than three
segments (slice bound out of range) and the empty path when it has three or four. No variant
returns a non-empty path. -/
theorem ParceRepositoryFullName_malformed (webURL : String)
    (hlen : (strings.Split webURL '/').length < 5) :
    gitlab.ParceRepositoryFullName webURL = none
      ∧ ((strings.Split webURL '/').length < 3 → internal.ParceRepositoryFullName webURL = none)
      ∧ (3 ≤ (strings.Split webURL '/').length →
          internal.ParceRepositoryFullName webURL = some "") := by
  match hsp : strings.Split webURL '/' with
  | [] => simp [gitlab.ParceRepositoryFullName, internal.ParceRepositoryFullName, hsp]
  | [_] => simp [gitlab.ParceRepositoryFullName, internal.ParceRepositoryFullName, hsp]
  | [_, _] => simp [gitlab.ParceRepositoryFullName, internal.ParceRepositoryFullName, hsp]
  | [_, _, _] =>
    simp [gitlab.ParceRepositoryFullName, internal.ParceRepositoryFullName, hsp,
      internal.scanURL, strings.Join]
  | [_, _, _, w] =>
    simp [gitlab.ParceRepositoryFullName, internal.ParceRepositoryFullName, hsp,
      internal.scanURL, scanWords_subPageWords, strings.Join]
  | _ :: _ :: _ :: _ :: _ :: _ =>
    rw [hsp] at hlen
    simp only [List.length_cons] at hlen
    omega

/-- C12, amended, at a URL that is only scheme and host (three segments). -/
theorem ParceRepositoryFullName_malformed_witness :
    (strings.Split "https://gitlab.example.com" '/').length < 5
      ∧ gitlab.ParceRepositoryFullName "https://gitlab.example.com" = none
      ∧ internal.ParceRepositoryFullName "https://gitlab.example.com" = some "" :=
  ⟨by decide,
   (ParceRepositoryFullName_malformed "https://gitlab.example.com" (by decide)).1,
   (ParceRepositoryFullName_malformed "https://gitlab.example.com" (by decide)).2.2
     (by decide)⟩

end lab
